import Mathlib

/-!
Shallow embedding of the payee-side micropayment channel logic
(`picopayments/channel/payee.py`) and the Channel State helpers it uses.

External collaborators (blockchain adapter, script inspector, key/hash
utilities) are abstracted as an `Env` of opaque functions, following the
boundary contracts of the specification.  Raw transactions, secrets,
hex strings, public keys and addresses are coded as natural numbers; a
locking script is represented by the fields the script inspector can
extract from it.
-/

namespace Picopayments

/-- A locking script, represented by the fields the Script Inspector
extracts: embedded spend-secret-hash, payee pubkey, revoke-secret-hash
and relative delay (the latter two only meaningful for commit scripts). -/
structure Script where
  spendSecretHash : Nat
  payeePubkey : Nat
  revokeSecretHash : Nat
  delayTime : Nat
deriving DecidableEq, Repr

/-- A commit record as stored by the channel: `{rawtx, script, revoke_secret}`. -/
structure Commit where
  rawtx : Nat
  script : Script
  revoke_secret : Nat
deriving DecidableEq, Repr

/-- The payee's channel state (fields of `channel.base.Base` used by `Payee`). -/
structure Channel where
  payer_wif : Option Nat
  payee_wif : Option Nat
  spend_secret : Option Nat
  deposit_rawtx : Option Nat
  deposit_script : Option Script
  commits_requested : List Nat
  commits_active : List Commit
  commits_revoked : List Commit
  payout_rawtxs : List Nat
deriving DecidableEq, Repr

/-- External collaborators: blockchain adapter, script inspector is folded
into `Script`'s fields, key utilities (hash160, hex encode/decode,
wif→pubkey), and chain queries. -/
structure Env where
  hash160 : Nat → Nat
  b2h : Nat → Nat
  h2b : Nat → Nat
  wif2pubkey : Nat → Nat
  badSignatureCount : Nat → Nat
  getQuantity : Nat → Nat
  gettxid : Nat → Nat
  commitSpent : Commit → Bool
  script2address : Script → Nat
  canSpendFromAddress : Nat → Bool
  retrieveUtxos : Nat → List Nat
  confirms : Nat → Nat

/-- Errors: fatal assertion failures versus recoverable validation errors
(the latter carry the given and the expected value, as the raised
`ValueError` message does); `invalidUnsigned` is the validation error of
`validate.unsigned`. -/
inductive Err where
  | assertion
  | validation (given expected : Nat)
  | invalidUnsigned (given : Int)
deriving DecidableEq, Repr

/-- Embeds `util.hash160hex`: `b2h(hash160(h2b(hexdata)))`. -/
def hash160hex (env : Env) (hexdata : Nat) : Nat :=
  env.b2h (env.hash160 (env.h2b hexdata))

/-- Modelled from the spec: `clear` (from the channel `Base` class, not in
the provided sources) resets the channel to its initial empty state. -/
def Channel.clear (_ch : Channel) : Channel :=
  { payer_wif := none, payee_wif := none, spend_secret := none,
    deposit_rawtx := none, deposit_script := none,
    commits_requested := [], commits_active := [], commits_revoked := [],
    payout_rawtxs := [] }

/-- Embeds `Payee.setup(payee_wif)`: clears the channel, stores the payee key,
draws a fresh spend secret (`entropy` stands for the `os.urandom(32)`
draw) and returns the payee pubkey with the spend-secret hash. -/
def setup (env : Env) (ch : Channel) (payee_wif entropy : Nat) :
    (Nat × Nat) × Channel :=
  let ch1 := ch.clear
  let ch2 := { ch1 with payee_wif := some payee_wif }
  let payee_pubkey := env.wif2pubkey payee_wif
  let ch3 := { ch2 with spend_secret := some (env.b2h entropy) }
  let spend_secret_hash := env.b2h (env.hash160 entropy)
  ((payee_pubkey, spend_secret_hash), ch3)

/-- Embeds `Payee._assert_unopen_state` as a decidable predicate on the state. -/
def unopenState (ch : Channel) : Bool :=
  ch.payer_wif = none && ch.payee_wif ≠ none && ch.spend_secret ≠ none &&
  ch.deposit_rawtx = none && ch.deposit_script = none &&
  ch.commits_active.length = 0 && ch.commits_revoked.length = 0

/-- Embeds `Payee.set_deposit(rawtx, script)`: asserts the unopened state, asserts
the signature-count shape, validates the script's spend-secret-hash and
payee pubkey (raising a validation error naming given and expected value
on mismatch), then stores the deposit. -/
def set_deposit (env : Env) (ch : Channel) (rawtx : Nat) (script : Script) :
    Except Err Channel :=
  if ¬ unopenState ch then .error .assertion
  else if env.badSignatureCount rawtx ≠ 1 then .error .assertion
  else
    let given_ssh := script.spendSecretHash
    let own_ssh := hash160hex env (ch.spend_secret.getD 0)
    if given_ssh ≠ own_ssh then .error (.validation given_ssh own_ssh)
    else
      let given_pk := script.payeePubkey
      let own_pk := env.wif2pubkey (ch.payee_wif.getD 0)
      if given_pk ≠ own_pk then .error (.validation given_pk own_pk)
      else .ok { ch with deposit_rawtx := some rawtx,
                         deposit_script := some script }

/-- Modelled from the spec: `transferred_amount` (from the channel `Base`
class, not in the provided sources) is the quantity of the last active
commit, or zero if none. -/
def get_transferred_amount (env : Env) (ch : Channel) : Nat :=
  match ch.commits_active.getLast? with
  | some c => env.getQuantity c.rawtx
  | none => 0

/-- Modelled from the spec: `_validate_transfer_quantity` (from the channel
`Base` class, not in the provided sources) checks the quantity is
non-negative (automatic for `Nat`) and does not regress below the
previously transferred amount. -/
def validate_transfer_quantity (env : Env) (ch : Channel) (quantity : Nat) :
    Except Err Unit :=
  if quantity < get_transferred_amount env ch then
    .error (.validation quantity (get_transferred_amount env ch))
  else .ok ()

/-- Embeds `Payee.request_commit(quantity)`: validates the quantity, draws a fresh
revoke secret (`entropy` stands for the `os.urandom(32)` draw), records
it in `commits_requested` and returns the quantity with the secret hash. -/
def request_commit (env : Env) (ch : Channel) (quantity entropy : Nat) :
    Except Err ((Nat × Nat) × Channel) :=
  match validate_transfer_quantity env ch quantity with
  | .error e => .error e
  | .ok _ =>
    let secret := env.b2h entropy
    let secret_hash := hash160hex env secret
    .ok ((quantity, secret_hash),
         { ch with commits_requested := ch.commits_requested ++ [secret] })

/-- Ordering of commits by transferred quantity, as `order_active` uses it. -/
def commitLE (env : Env) (a b : Commit) : Prop :=
  env.getQuantity a.rawtx ≤ env.getQuantity b.rawtx

instance (env : Env) : DecidableRel (commitLE env) :=
  fun a b => Nat.decLe (env.getQuantity a.rawtx) (env.getQuantity b.rawtx)

instance (env : Env) : IsTotal Commit (commitLE env) :=
  ⟨fun a b => Nat.le_total (env.getQuantity a.rawtx) (env.getQuantity b.rawtx)⟩

instance (env : Env) : IsTrans Commit (commitLE env) :=
  ⟨fun _ _ _ hab hbc => Nat.le_trans hab hbc⟩

/-- Modelled from the spec: `_order_active` (from the channel `Base` class,
not in the provided sources) stably re-sorts `commits_active` ascending by
transferred quantity. -/
def order_active (env : Env) (ch : Channel) : Channel :=
  { ch with commits_active := ch.commits_active.insertionSort (commitLE env) }

/-- The active commits as `order_active` sorts them. -/
def sortedActive (env : Env) (ch : Channel) : List Commit :=
  ch.commits_active.insertionSort (commitLE env)

/-- The scan of `Payee.set_commit` over `commits_requested`: the first
requested secret whose hash equals the script's revoke-secret-hash. -/
def findMatch (env : Env) (revoke_secret_hash : Nat) :
    List Nat → Option Nat
  | [] => none
  | s :: rest =>
    if hash160hex env s = revoke_secret_hash then some s
    else findMatch env revoke_secret_hash rest

/-- Embeds `Payee.set_commit(rawtx, script)`: asserts the signature-count shape,
validates spend-secret-hash and payee pubkey, then searches
`commits_requested` for a secret hashing to the script's
revoke-secret-hash.  On a match it removes that secret, re-orders the
active commits, appends the new commit and returns the transferred
amount; otherwise it returns `none` leaving the state unchanged. -/
def set_commit (env : Env) (ch : Channel) (rawtx : Nat) (script : Script) :
    Except Err (Option Nat × Channel) :=
  if env.badSignatureCount rawtx ≠ 1 then .error .assertion
  else
    let given_ssh := script.spendSecretHash
    let own_ssh := hash160hex env (ch.spend_secret.getD 0)
    if given_ssh ≠ own_ssh then .error (.validation given_ssh own_ssh)
    else
      let given_pk := script.payeePubkey
      let own_pk := env.wif2pubkey (ch.payee_wif.getD 0)
      if given_pk ≠ own_pk then .error (.validation given_pk own_pk)
      else
        match findMatch env script.revokeSecretHash ch.commits_requested with
        | none => .ok (none, ch)
        | some s =>
          let ch1 := { ch with
            commits_requested := ch.commits_requested.erase s }
          let ch2 := order_active env ch1
          let ch3 := { ch2 with commits_active := ch2.commits_active ++
            [{ rawtx := rawtx, script := script, revoke_secret := s }] }
          .ok (some (get_transferred_amount env ch3), ch3)

/-- Modelled from the spec: `revoke_all` (from the channel `Base` class, not
in the provided sources) moves every commit whose revoke secret is among
the given secrets from active to revoked. -/
def revoke_all (ch : Channel) (secrets : List Nat) : Channel :=
  { ch with
    commits_active :=
      ch.commits_active.filter (fun c => ¬ secrets.contains c.revoke_secret),
    commits_revoked := ch.commits_revoked ++
      ch.commits_active.filter (fun c => secrets.contains c.revoke_secret) }

/-- Embeds `Payee.revoke_until(quantity)`: re-orders the active commits, walks them
from highest to lowest quantity collecting the revoke secret of each
commit whose quantity strictly exceeds `quantity`, stopping at the first
that does not, then revokes the collected secrets and returns them. -/
def revoke_until (env : Env) (ch : Channel) (quantity : Nat) :
    List Nat × Channel :=
  let ch1 := order_active env ch
  let secrets := (ch1.commits_active.reverse.takeWhile
    (fun c => quantity < env.getQuantity c.rawtx)).map (·.revoke_secret)
  (secrets, revoke_all ch1 secrets)

/-- The scripts `Payee.get_payout_recoverable` collects for one commit: the
commit's script, once per unspent delay-matured UTXO at its address,
skipping commits already spent on-chain. -/
def recoverableForCommit (env : Env) (c : Commit) : List Script :=
  let delay_time := c.script.delayTime
  let address := env.script2address c.script
  if env.commitSpent c then []
  else if env.canSpendFromAddress address then
    (env.retrieveUtxos address).filterMap (fun txid =>
      if delay_time ≤ env.confirms txid then some c.script else none)
  else []

/-- Embeds `Payee.get_payout_recoverable()`: scans active and revoked commits. -/
def get_payout_recoverable (env : Env) (ch : Channel) : List Script :=
  (ch.commits_active ++ ch.commits_revoked).flatMap (recoverableForCommit env)

/-- Modelled from the spec: `_all_confirmed` (from the channel `Base` class,
not in the provided sources) is true iff every listed transaction has at
least `minconfirms` confirmations. -/
def all_confirmed (env : Env) (txs : List Nat) (minconfirms : Int) : Bool :=
  txs.all (fun tx => minconfirms ≤ (env.confirms (env.gettxid tx) : Int))

/-- Modelled from the spec: `validate.unsigned` (module not in the provided
sources) raises a validation error unless the value is a non-negative
integer. -/
def validate_unsigned (value : Int) : Except Err Unit :=
  if value < 0 then .error (.invalidUnsigned value) else .ok ()

/-- Embeds `Payee.payout_confirmed(minconfirms)`: validates `minconfirms` is
unsigned, then checks every recorded payout transaction is confirmed. -/
def payout_confirmed (env : Env) (ch : Channel) (minconfirms : Int) :
    Except Err Bool :=
  match validate_unsigned minconfirms with
  | .error e => .error e
  | .ok _ => .ok (all_confirmed env ch.payout_rawtxs minconfirms)

/-- The channel state `set_commit` produces when the requested secret `s`
matched: `s` is erased from the requests, the active commits are sorted
and the new commit record is appended. -/
def afterCommit (env : Env) (ch : Channel) (rawtx : Nat) (script : Script)
    (s : Nat) : Channel :=
  { ch with
    commits_requested := ch.commits_requested.erase s,
    commits_active := ch.commits_active.insertionSort (commitLE env) ++
      [{ rawtx := rawtx, script := script, revoke_secret := s }] }

/-! ### Witness fixtures: a concrete environment and channel states -/

/-- A concrete environment for evaluating the operations on examples. -/
def env0 : Env where
  hash160 := fun n => n + 100
  b2h := id
  h2b := id
  wif2pubkey := fun n => n + 1000
  badSignatureCount := fun _ => 1
  getQuantity := id
  gettxid := id
  commitSpent := fun _ => false
  script2address := fun s => s.spendSecretHash
  canSpendFromAddress := fun _ => true
  retrieveUtxos := fun _ => [1, 2]
  confirms := fun t => t

/-- A concrete just-set-up channel (payee key 7, spend secret 5). -/
def ch0 : Channel where
  payer_wif := none
  payee_wif := some 7
  spend_secret := some 5
  deposit_rawtx := none
  deposit_script := none
  commits_requested := []
  commits_active := []
  commits_revoked := []
  payout_rawtxs := []

/-- A concrete channel whose deposit is already set (not unopened). -/
def chWithDeposit : Channel :=
  { ch0 with deposit_rawtx := some 11,
             deposit_script := some ⟨105, 1007, 0, 0⟩ }

/-- A concrete channel with two pending commit requests. -/
def chReq : Channel := { ch0 with commits_requested := [21, 22] }

/-- A concrete channel with a pending request and a large active commit. -/
def chBig : Channel :=
  { ch0 with
    commits_requested := [21],
    commits_active :=
      [{ rawtx := 50, script := ⟨105, 1007, 888, 4⟩, revoke_secret := 99 }] }

/-- A concrete active commit for quantity 100 (revoke secret 31). -/
def cm100 : Commit :=
  { rawtx := 100, script := ⟨105, 1007, 131, 4⟩, revoke_secret := 31 }

/-- A concrete active commit for quantity 250 (revoke secret 32). -/
def cm250 : Commit :=
  { rawtx := 250, script := ⟨105, 1007, 132, 4⟩, revoke_secret := 32 }

/-- A concrete channel with the two active commits 100 and 250. -/
def chTwo : Channel := { ch0 with commits_active := [cm100, cm250] }

/-- One payment step of a request/accept session: the entropy drawn for
the requested revoke secret, the payer-signed commit transaction and the
script the payer embeds the revoke-secret hash in. -/
structure Step where
  entropy : Nat
  rawtx : Nat
  script : Script
deriving DecidableEq, Repr

/-- The commit record accepted for a step. -/
def mkCommit (env : Env) (st : Step) : Commit :=
  { rawtx := st.rawtx, script := st.script,
    revoke_secret := env.b2h st.entropy }

/-- Run `request_commit` for each step with the step's commit quantity. -/
def runRequests (env : Env) : Channel → List Step → Except Err Channel
  | ch, [] => .ok ch
  | ch, st :: rest =>
    match request_commit env ch (env.getQuantity st.rawtx) st.entropy with
    | .error e => .error e
    | .ok (_, ch') => runRequests env ch' rest

/-- Run `set_commit` for each step. -/
def runCommits (env : Env) : Channel → List Step → Except Err Channel
  | ch, [] => .ok ch
  | ch, st :: rest =>
    match set_commit env ch st.rawtx st.script with
    | .error e => .error e
    | .ok (_, ch') => runCommits env ch' rest

/-- The requested revoke secrets a list of steps generates. -/
def stepSecrets (env : Env) (steps : List Step) : List Nat :=
  steps.map (fun st => env.b2h st.entropy)

/-- The commit quantities of a list of steps. -/
def stepQuantities (env : Env) (steps : List Step) : List Nat :=
  steps.map (fun st => env.getQuantity st.rawtx)

/-- A channel with its requested-secrets list replaced. -/
def withRequested (ch : Channel) (r : List Nat) : Channel :=
  { ch with commits_requested := r }

/-- The channel state after a full session: no pending requests, and the
accepted commits appended to the active list. -/
def afterSession (env : Env) (ch : Channel) (steps : List Step) : Channel :=
  { ch with
    commits_requested := [],
    commits_active := ch.commits_active ++ steps.map (mkCommit env) }

/-- A concrete two-payment session: quantities 100 then 250, revoke-secret
entropies 31 and 32, scripts embedding the matching hashes. -/
def steps0 : List Step :=
  [{ entropy := 31, rawtx := 100, script := ⟨105, 1007, 131, 4⟩ },
   { entropy := 32, rawtx := 250, script := ⟨105, 1007, 132, 4⟩ }]

/-! ### Helper lemmas -/

lemma findMatch_eq_none (env : Env) (h : Nat) (l : List Nat)
    (hall : ∀ s ∈ l, hash160hex env s ≠ h) :
    findMatch env h l = none := by
  induction l with
  | nil => rfl
  | cons a t ih =>
    simp only [findMatch, if_neg (hall a (List.mem_cons_self a t))]
    exact ih (fun s hs => hall s (List.mem_cons_of_mem a hs))

lemma findMatch_eq_some (env : Env) (h : Nat) (l : List Nat) (s : Nat)
    (hfind : findMatch env h l = some s) :
    s ∈ l ∧ hash160hex env s = h := by
  induction l with
  | nil => simp [findMatch] at hfind
  | cons a t ih =>
    by_cases hha : hash160hex env a = h
    · simp only [findMatch, if_pos hha, Option.some.injEq] at hfind
      subst hfind
      exact ⟨List.mem_cons_self a t, hha⟩
    · simp only [findMatch, if_neg hha] at hfind
      obtain ⟨hmem, hh⟩ := ih hfind
      exact ⟨List.mem_cons_of_mem a hmem, hh⟩

lemma set_commit_match_eq (env : Env) (ch : Channel) (rawtx : Nat)
    (script : Script) (s : Nat)
    (hsig : env.badSignatureCount rawtx = 1)
    (hssh : script.spendSecretHash = hash160hex env (ch.spend_secret.getD 0))
    (hpk : script.payeePubkey = env.wif2pubkey (ch.payee_wif.getD 0))
    (hfind : findMatch env script.revokeSecretHash ch.commits_requested =
      some s) :
    set_commit env ch rawtx script =
      .ok (some (env.getQuantity rawtx), afterCommit env ch rawtx script s) := by
  simp [set_commit, hsig, hssh, hpk, hfind, afterCommit, order_active,
    get_transferred_amount, List.getLast?_concat]

lemma mem_recoverableForCommit (env : Env) (c : Commit) (s : Script) :
    s ∈ recoverableForCommit env c ↔
      (c.script = s ∧ env.commitSpent c = false ∧
       env.canSpendFromAddress (env.script2address c.script) = true ∧
       ∃ txid ∈ env.retrieveUtxos (env.script2address c.script),
         c.script.delayTime ≤ env.confirms txid) := by
  unfold recoverableForCommit
  cases hspent : env.commitSpent c with
  | true => simp [hspent]
  | false =>
    cases hcan : env.canSpendFromAddress (env.script2address c.script) with
    | false => simp [hcan]
    | true =>
      simp only [hspent, hcan, if_true, Bool.false_eq_true, if_false,
        List.mem_filterMap, true_and]
      constructor
      · rintro ⟨txid, htx, hif⟩
        by_cases hd : c.script.delayTime ≤ env.confirms txid
        · rw [if_pos hd] at hif
          obtain rfl := Option.some.inj hif
          exact ⟨rfl, txid, htx, hd⟩
        · rw [if_neg hd] at hif
          cases hif
      · rintro ⟨rfl, txid, htx, hd⟩
        exact ⟨txid, htx, by rw [if_pos hd]⟩

lemma takeWhile_eq_filter_of_pairwise {α : Type} (p : α → Bool) :
    ∀ l : List α, l.Pairwise (fun a b => p b = true → p a = true) →
      l.takeWhile p = l.filter p := by
  intro l
  induction l with
  | nil => intro _; rfl
  | cons a t ih =>
    intro hl
    rcases List.pairwise_cons.mp hl with ⟨ha, ht⟩
    by_cases hpa : p a = true
    · rw [List.takeWhile_cons, List.filter_cons, if_pos hpa, if_pos hpa,
        ih ht]
    · rw [List.takeWhile_cons, List.filter_cons, if_neg hpa, if_neg hpa]
      exact (List.filter_eq_nil_iff.mpr
        fun b hb hpb => hpa (ha b hb hpb)).symm

lemma revoke_until_eq (env : Env) (ch : Channel) (q : Nat) :
    revoke_until env ch q =
      ((((sortedActive env ch).filter
          (fun c => q < env.getQuantity c.rawtx)).reverse).map
          (·.revoke_secret),
       revoke_all { ch with commits_active := sortedActive env ch }
         ((((sortedActive env ch).filter
           (fun c => q < env.getQuantity c.rawtx)).reverse).map
           (·.revoke_secret))) := by
  have hsorted : List.Sorted (commitLE env) (sortedActive env ch) :=
    List.sorted_insertionSort _ _
  have hrevpair : (sortedActive env ch).reverse.Pairwise
      (fun a b => decide (q < env.getQuantity b.rawtx) = true →
        decide (q < env.getQuantity a.rawtx) = true) := by
    rw [List.pairwise_reverse]
    refine hsorted.imp ?_
    intro a b hab
    simp only [decide_eq_true_eq]
    exact fun hqa => lt_of_lt_of_le hqa hab
  have htake := takeWhile_eq_filter_of_pairwise
    (fun c => decide (q < env.getQuantity c.rawtx))
    (sortedActive env ch).reverse hrevpair
  rw [List.filter_reverse] at htake
  simp only [revoke_until, order_active, sortedActive] at htake ⊢
  rw [htake]

lemma runRequests_eq (env : Env) :
    ∀ (steps : List Step) (ch : Channel), ch.commits_active = [] →
      runRequests env ch steps =
        .ok (withRequested ch
          (ch.commits_requested ++ stepSecrets env steps)) := by
  intro steps
  induction steps with
  | nil =>
    intro ch _
    simp [runRequests, withRequested, stepSecrets]
  | cons st rest ih =>
    intro ch hact
    have hval : validate_transfer_quantity env ch
        (env.getQuantity st.rawtx) = .ok () := by
      simp [validate_transfer_quantity, get_transferred_amount, hact]
    simp only [runRequests, request_commit, hval]
    rw [ih { ch with commits_requested :=
      ch.commits_requested ++ [env.b2h st.entropy] } hact]
    simp [withRequested, stepSecrets, List.append_assoc]

lemma runCommits_eq (env : Env) :
    ∀ (steps : List Step) (ch : Channel),
      ch.commits_requested = stepSecrets env steps →
      List.Sorted (commitLE env) ch.commits_active →
      (∀ c ∈ ch.commits_active, ∀ st ∈ steps,
        env.getQuantity c.rawtx < env.getQuantity st.rawtx) →
      (stepQuantities env steps).Pairwise (· < ·) →
      (∀ st ∈ steps, env.badSignatureCount st.rawtx = 1 ∧
        st.script.spendSecretHash =
          hash160hex env (ch.spend_secret.getD 0) ∧
        st.script.payeePubkey = env.wif2pubkey (ch.payee_wif.getD 0) ∧
        st.script.revokeSecretHash = hash160hex env (env.b2h st.entropy)) →
      runCommits env ch steps = .ok (afterSession env ch steps) := by
  intro steps
  induction steps with
  | nil =>
    intro ch hreq _ _ _ _
    obtain ⟨pw, kw, ss, dr, ds, cr, ca, cv, pr⟩ := ch
    simp only [stepSecrets, List.map_nil] at hreq
    subst hreq
    simp [runCommits, afterSession]
  | cons st rest ih =>
    intro ch hreq hsorted hlt hinc hvalid
    obtain ⟨pw, kw, ss, dr, ds, cr, ca, cv, pr⟩ := ch
    simp only [stepSecrets] at hreq
    simp only at hsorted hlt hvalid
    subst hreq
    simp only [stepQuantities, List.map_cons] at hinc
    obtain ⟨hhead, htail⟩ := List.pairwise_cons.mp hinc
    obtain ⟨hsig, hssh, hpk, hrsh⟩ := hvalid st (List.mem_cons_self st rest)
    have hfind : findMatch env st.script.revokeSecretHash
        ((st :: rest).map (fun st => env.b2h st.entropy)) =
        some (env.b2h st.entropy) := by
      simp only [List.map_cons, findMatch]
      rw [if_pos hrsh.symm]
    have heq := set_commit_match_eq env
      ⟨pw, kw, ss, dr, ds, (st :: rest).map (fun st => env.b2h st.entropy),
        ca, cv, pr⟩ st.rawtx st.script (env.b2h st.entropy)
      hsig hssh hpk hfind
    have hafter : afterCommit env
        ⟨pw, kw, ss, dr, ds, (st :: rest).map (fun st => env.b2h st.entropy),
          ca, cv, pr⟩ st.rawtx st.script (env.b2h st.entropy) =
        ⟨pw, kw, ss, dr, ds, rest.map (fun st => env.b2h st.entropy),
          ca ++ [mkCommit env st], cv, pr⟩ := by
      simp [afterCommit, List.erase_cons_head, hsorted.insertionSort_eq,
        mkCommit]
    rw [hafter] at heq
    have hsorted' : List.Sorted (commitLE env) (ca ++ [mkCommit env st]) := by
      refine List.pairwise_append.mpr ⟨hsorted, ?_, ?_⟩
      · simp
      · intro a ha b hb
        rw [List.mem_singleton] at hb
        subst hb
        exact le_of_lt (hlt a ha st (List.mem_cons_self st rest))
    have hlt' : ∀ c ∈ ca ++ [mkCommit env st], ∀ st' ∈ rest,
        env.getQuantity c.rawtx < env.getQuantity st'.rawtx := by
      intro c hc st' hst'
      rcases List.mem_append.mp hc with hc | hc
      · exact hlt c hc st' (List.mem_cons_of_mem st hst')
      · rw [List.mem_singleton] at hc
        subst hc
        exact hhead _ (List.mem_map_of_mem
          (fun st => env.getQuantity st.rawtx) hst')
    have hvalid' : ∀ st' ∈ rest, env.badSignatureCount st'.rawtx = 1 ∧
        st'.script.spendSecretHash = hash160hex env (ss.getD 0) ∧
        st'.script.payeePubkey = env.wif2pubkey (kw.getD 0) ∧
        st'.script.revokeSecretHash = hash160hex env (env.b2h st'.entropy) :=
      fun st' h => hvalid st' (List.mem_cons_of_mem st h)
    simp only [runCommits, heq]
    rw [ih ⟨pw, kw, ss, dr, ds, rest.map (fun st => env.b2h st.entropy),
      ca ++ [mkCommit env st], cv, pr⟩ rfl hsorted' hlt' htail hvalid']
    simp [afterSession, List.append_assoc]

/-! ### C6: ascending request/accept sessions -/

/-- C6: from a channel with no pending requests and no active commits, a
session of `request_commit` calls followed by the matching `set_commit`
calls with strictly increasing quantities succeeds, leaves
`commits_active` equal to the accepted commits in order, ordered
ascending by quantity, and the final transferred amount equals the last
(highest) quantity. -/
theorem session_ascending (env : Env) (ch : Channel) (steps : List Step)
    (hreq0 : ch.commits_requested = [])
    (hact0 : ch.commits_active = [])
    (hinc : (stepQuantities env steps).Pairwise (· < ·))
    (hvalid : ∀ st ∈ steps, env.badSignatureCount st.rawtx = 1 ∧
      st.script.spendSecretHash = hash160hex env (ch.spend_secret.getD 0) ∧
      st.script.payeePubkey = env.wif2pubkey (ch.payee_wif.getD 0) ∧
      st.script.revokeSecretHash = hash160hex env (env.b2h st.entropy)) :
    ∃ chf, runRequests env ch steps =
        .ok (withRequested ch (stepSecrets env steps)) ∧
      runCommits env (withRequested ch (stepSecrets env steps)) steps =
        .ok chf ∧
      chf.commits_active = steps.map (mkCommit env) ∧
      chf.commits_active.map (fun c => env.getQuantity c.rawtx) =
        stepQuantities env steps ∧
      List.Sorted (commitLE env) chf.commits_active ∧
      ∀ qn, (stepQuantities env steps).getLast? = some qn →
        get_transferred_amount env chf = qn := by
  obtain ⟨pw, kw, ss, dr, ds, cr, ca, cv, pr⟩ := ch
  simp only at hreq0 hact0 hvalid
  subst hreq0
  subst hact0
  have h1 := runRequests_eq env steps
    ⟨pw, kw, ss, dr, ds, [], [], cv, pr⟩ rfl
  rw [List.nil_append] at h1
  have h2 := runCommits_eq env steps
    ⟨pw, kw, ss, dr, ds, stepSecrets env steps, [], cv, pr⟩ rfl
    List.sorted_nil (by intro c hc; cases hc) hinc hvalid
  refine ⟨⟨pw, kw, ss, dr, ds, [], steps.map (mkCommit env), cv, pr⟩,
    h1, ?_, rfl, ?_, ?_, ?_⟩
  · exact h2
  · rw [List.map_map]
    rfl
  · exact List.pairwise_map.mpr ((List.pairwise_map.mp hinc).imp
      (fun h => le_of_lt h))
  · intro qn hqn
    simp only [stepQuantities] at hqn
    rw [List.getLast?_map] at hqn
    cases hlast : steps.getLast? with
    | none => rw [hlast] at hqn; cases hqn
    | some st =>
      rw [hlast] at hqn
      obtain rfl := Option.some.inj hqn
      simp [get_transferred_amount, List.getLast?_map, hlast, mkCommit]

theorem session_ascending_witness :
    ∃ chf, runRequests env0 ch0 steps0 =
        .ok (withRequested ch0 (stepSecrets env0 steps0)) ∧
      runCommits env0 (withRequested ch0 (stepSecrets env0 steps0)) steps0 =
        .ok chf ∧
      chf.commits_active = steps0.map (mkCommit env0) ∧
      chf.commits_active.map (fun c => env0.getQuantity c.rawtx) =
        stepQuantities env0 steps0 ∧
      List.Sorted (commitLE env0) chf.commits_active ∧
      ∀ qn, (stepQuantities env0 steps0).getLast? = some qn →
        get_transferred_amount env0 chf = qn :=
  session_ascending env0 ch0 steps0 rfl rfl (by decide) (by decide)

/-! ### C1: revoke_until -/

/-- C1: `revoke_until(q)` scans the (sorted) active commits from highest to
lowest quantity: it returns the revoke secrets of exactly the commits
whose quantity strictly exceeds `q` (in descending order), moves exactly
those commits from active to revoked and keeps the rest (so a commit with
quantity exactly `q` stays active); if `q` is below every active quantity
all secrets are disclosed and `commits_active` empties, and if `q` is at
or above every active quantity nothing is disclosed. -/
theorem revoke_until_spec (env : Env) (ch : Channel) (q : Nat)
    (hnd : ((sortedActive env ch).map (·.revoke_secret)).Nodup) :
    (revoke_until env ch q).1 =
      (((sortedActive env ch).filter
        (fun c => q < env.getQuantity c.rawtx)).reverse).map
        (·.revoke_secret) ∧
    ((revoke_until env ch q).2).commits_active =
      (sortedActive env ch).filter
        (fun c => env.getQuantity c.rawtx ≤ q) ∧
    ((revoke_until env ch q).2).commits_revoked =
      ch.commits_revoked ++ (sortedActive env ch).filter
        (fun c => q < env.getQuantity c.rawtx) ∧
    ((∀ c ∈ ch.commits_active, q < env.getQuantity c.rawtx) →
      ((revoke_until env ch q).2).commits_active = [] ∧
      ((revoke_until env ch q).1).length = ch.commits_active.length) ∧
    ((∀ c ∈ ch.commits_active, env.getQuantity c.rawtx ≤ q) →
      (revoke_until env ch q).1 = []) := by
  have heq := revoke_until_eq env ch q
  have hperm : (sortedActive env ch).Perm ch.commits_active :=
    List.perm_insertionSort _ _
  have hkey : ∀ c ∈ sortedActive env ch,
      (((((sortedActive env ch).filter
        (fun c => q < env.getQuantity c.rawtx)).reverse).map
        (·.revoke_secret)).contains c.revoke_secret = true ↔
        q < env.getQuantity c.rawtx) := by
    intro c hc
    constructor
    · intro hcont
      have hmem := List.elem_iff.mp hcont
      rw [List.mem_map] at hmem
      obtain ⟨c', hc', hrs⟩ := hmem
      rw [List.mem_reverse, List.mem_filter] at hc'
      obtain ⟨hc'mem, hp⟩ := hc'
      have hcc : c' = c := List.inj_on_of_nodup_map hnd hc'mem hc hrs
      subst hcc
      exact decide_eq_true_eq.mp hp
    · intro hq
      refine List.elem_iff.mpr ?_
      rw [List.mem_map]
      refine ⟨c, ?_, rfl⟩
      rw [List.mem_reverse, List.mem_filter]
      exact ⟨hc, decide_eq_true_eq.mpr hq⟩
  have hact : (sortedActive env ch).filter
      (fun c => decide ¬(((((sortedActive env ch).filter
        (fun c => q < env.getQuantity c.rawtx)).reverse).map
        (·.revoke_secret)).contains c.revoke_secret = true)) =
      (sortedActive env ch).filter
        (fun c => env.getQuantity c.rawtx ≤ q) :=
    List.filter_congr (fun c hc => by
      rw [decide_eq_decide, hkey c hc, Nat.not_lt])
  have hrev : (sortedActive env ch).filter
      (fun c => ((((sortedActive env ch).filter
        (fun c => q < env.getQuantity c.rawtx)).reverse).map
        (·.revoke_secret)).contains c.revoke_secret) =
      (sortedActive env ch).filter
        (fun c => q < env.getQuantity c.rawtx) :=
    List.filter_congr (fun c hc => by
      rw [← Bool.coe_iff_coe, hkey c hc, decide_eq_true_eq])
  refine ⟨by rw [heq], ?_, ?_, ?_, ?_⟩
  · rw [heq]
    simp only [revoke_all]
    exact hact
  · rw [heq]
    simp only [revoke_all]
    rw [hrev]
  · intro hall
    have hall' : ∀ c ∈ sortedActive env ch, q < env.getQuantity c.rawtx :=
      fun c hc => hall c (hperm.mem_iff.mp hc)
    constructor
    · rw [heq]
      simp only [revoke_all]
      rw [hact]
      exact List.filter_eq_nil_iff.mpr (fun c hc => by
        simp only [decide_eq_true_eq, Nat.not_le]
        exact hall' c hc)
    · rw [heq]
      simp only [List.length_map, List.length_reverse]
      rw [List.filter_eq_self.mpr
        (fun c hc => decide_eq_true_eq.mpr (hall' c hc))]
      exact hperm.length_eq
  · intro hall
    have hall' : ∀ c ∈ sortedActive env ch, env.getQuantity c.rawtx ≤ q :=
      fun c hc => hall c (hperm.mem_iff.mp hc)
    rw [heq]
    simp only []
    rw [List.filter_eq_nil_iff.mpr (fun c hc => by
      simp only [decide_eq_true_eq, Nat.not_lt]
      exact hall' c hc)]
    rfl

theorem revoke_until_spec_witness :
    (revoke_until env0 chTwo 100).1 =
      (((sortedActive env0 chTwo).filter
        (fun c => 100 < env0.getQuantity c.rawtx)).reverse).map
        (·.revoke_secret) ∧
    ((revoke_until env0 chTwo 100).2).commits_active =
      (sortedActive env0 chTwo).filter
        (fun c => env0.getQuantity c.rawtx ≤ 100) ∧
    ((revoke_until env0 chTwo 100).2).commits_revoked =
      chTwo.commits_revoked ++ (sortedActive env0 chTwo).filter
        (fun c => 100 < env0.getQuantity c.rawtx) ∧
    ((∀ c ∈ chTwo.commits_active, 100 < env0.getQuantity c.rawtx) →
      ((revoke_until env0 chTwo 100).2).commits_active = [] ∧
      ((revoke_until env0 chTwo 100).1).length =
        chTwo.commits_active.length) ∧
    ((∀ c ∈ chTwo.commits_active, env0.getQuantity c.rawtx ≤ 100) →
      (revoke_until env0 chTwo 100).1 = []) :=
  revoke_until_spec env0 chTwo 100 (by decide)

/-! ### C8: setup round-trip -/

/-- C8: hashing the spend secret that `setup` stores in the channel yields
exactly the spend-secret-hash that `setup` returns alongside the payee
public key. -/
theorem setup_roundtrip (env : Env) (ch : Channel) (k e : Nat)
    (hinv : env.h2b (env.b2h e) = e) :
    hash160hex env (((setup env ch k e).2).spend_secret.getD 0) =
      ((setup env ch k e).1).2 := by
  simp [setup, hash160hex, hinv]

theorem setup_roundtrip_witness :
    hash160hex env0 (((setup env0 ch0 7 5).2).spend_secret.getD 0) =
      ((setup env0 ch0 7 5).1).2 :=
  setup_roundtrip env0 ch0 7 5 rfl

/-! ### C10: payout_confirmed validates minconfirms first -/

/-- C10: `payout_confirmed` rejects every negative `minconfirms` with a
validation error, for every environment and channel (so it fails without
consulting the blockchain adapter and without touching the state). -/
theorem payout_confirmed_rejects_negative (env : Env) (ch : Channel)
    (m : Int) (hm : m < 0) :
    payout_confirmed env ch m = .error (.invalidUnsigned m) := by
  simp [payout_confirmed, validate_unsigned, if_pos hm]

theorem payout_confirmed_rejects_negative_witness :
    payout_confirmed env0 ch0 (-1) = .error (.invalidUnsigned (-1)) :=
  payout_confirmed_rejects_negative env0 ch0 (-1) (by decide)

/-! ### C2: set_commit with an unmatched revoke hash -/

/-- C2: when the script's revoke-secret-hash matches no requested secret,
`set_commit` returns the no-match result `none` (not a validation error)
and the channel state is returned unchanged. -/
theorem set_commit_no_match (env : Env) (ch : Channel) (rawtx : Nat)
    (script : Script)
    (hsig : env.badSignatureCount rawtx = 1)
    (hssh : script.spendSecretHash = hash160hex env (ch.spend_secret.getD 0))
    (hpk : script.payeePubkey = env.wif2pubkey (ch.payee_wif.getD 0))
    (hno : ∀ s ∈ ch.commits_requested,
      hash160hex env s ≠ script.revokeSecretHash) :
    set_commit env ch rawtx script = .ok (none, ch) := by
  have hfind := findMatch_eq_none env script.revokeSecretHash
    ch.commits_requested hno
  simp [set_commit, hsig, hssh, hpk, hfind]

theorem set_commit_no_match_witness :
    set_commit env0
      { ch0 with commits_requested := [21, 22] } 9 ⟨105, 1007, 999, 4⟩ =
      .ok (none, { ch0 with commits_requested := [21, 22] }) :=
  set_commit_no_match env0 { ch0 with commits_requested := [21, 22] } 9
    ⟨105, 1007, 999, 4⟩ (by decide) (by decide) (by decide) (by decide)

/-! ### C4: set_deposit validation errors leave the deposit unset -/

/-- C4: on an unopened channel, `set_deposit` with a script whose
spend-secret-hash differs fails with a validation error naming the given
and the expected hash; with a matching hash but a differing payee pubkey
it fails naming the given and the expected pubkey; in either case no new
state is produced and the pre-state's deposit fields are `none`. -/
theorem set_deposit_mismatch (env : Env) (ch : Channel) (rawtx : Nat)
    (script : Script)
    (hopen : unopenState ch = true)
    (hsig : env.badSignatureCount rawtx = 1) :
    (script.spendSecretHash ≠ hash160hex env (ch.spend_secret.getD 0) →
      set_deposit env ch rawtx script = .error (.validation
        script.spendSecretHash (hash160hex env (ch.spend_secret.getD 0)))) ∧
    (script.spendSecretHash = hash160hex env (ch.spend_secret.getD 0) →
      script.payeePubkey ≠ env.wif2pubkey (ch.payee_wif.getD 0) →
      set_deposit env ch rawtx script = .error (.validation
        script.payeePubkey (env.wif2pubkey (ch.payee_wif.getD 0)))) ∧
    ch.deposit_rawtx = none ∧ ch.deposit_script = none := by
  have hfields := hopen
  simp only [unopenState, Bool.and_eq_true, decide_eq_true_eq] at hfields
  obtain ⟨⟨⟨⟨⟨⟨-, -⟩, -⟩, hdr⟩, hds⟩, -⟩, -⟩ := hfields
  refine ⟨fun hne => ?_, fun heq hne => ?_, hdr, hds⟩
  · simp [set_deposit, hopen, hsig, hne]
  · simp [set_deposit, hopen, hsig, heq, hne]

theorem set_deposit_mismatch_witness :
    set_deposit env0 ch0 3 ⟨999, 1007, 0, 0⟩ = .error (.validation 999 105) ∧
    set_deposit env0 ch0 3 ⟨105, 999, 0, 0⟩ = .error (.validation 999 1007) :=
  ⟨(set_deposit_mismatch env0 ch0 3 ⟨999, 1007, 0, 0⟩ (by decide)
      (by decide)).1 (by decide),
   (set_deposit_mismatch env0 ch0 3 ⟨105, 999, 0, 0⟩ (by decide)
      (by decide)).2.1 (by decide) (by decide)⟩

/-! ### C5: setup does not assert the unopened state (corrected) -/

/-- C5 counterexample: on a channel whose deposit is already set (so the
unopened-state invariant fails), `setup` does not abort: it completes
normally, returning the pubkey/hash pair and the reset channel. -/
theorem setup_counterexample :
    unopenState chWithDeposit = false ∧
    setup env0 chWithDeposit 7 5 =
      ((1007, 105),
       { payer_wif := none, payee_wif := some 7, spend_secret := some 5,
         deposit_rawtx := none, deposit_script := none,
         commits_requested := [], commits_active := [],
         commits_revoked := [], payout_rawtxs := [] }) := by
  constructor
  · decide
  · rfl

/-- C5 amended: `setup` enforces no precondition — from every channel state
it resets the channel via `clear` and returns normally, its result
independent of the prior state; the fatal unopened-state assertion is
enforced by `set_deposit`, which aborts with an assertion error whenever
the unopened-state invariant fails. -/
theorem setup_resets_unconditionally (env : Env) (ch : Channel) (k e : Nat) :
    setup env ch k e =
      ((env.wif2pubkey k, env.b2h (env.hash160 e)),
       { payer_wif := none, payee_wif := some k,
         spend_secret := some (env.b2h e), deposit_rawtx := none,
         deposit_script := none, commits_requested := [],
         commits_active := [], commits_revoked := [],
         payout_rawtxs := [] }) ∧
    (∀ rawtx script, unopenState ch = false →
      set_deposit env ch rawtx script = .error .assertion) := by
  refine ⟨rfl, fun rawtx script hnot => ?_⟩
  simp [set_deposit, hnot]

/-! ### C3: set_commit on a match consumes the request -/

/-- C3: when a requested secret hashing to the script's revoke-secret-hash
is found, `set_commit` removes exactly that secret from
`commits_requested` (so it cannot match again), re-orders
`commits_active`, appends the new commit record and returns the new
transferred amount. -/
theorem set_commit_match_consumes (env : Env) (ch : Channel) (rawtx : Nat)
    (script : Script) (s : Nat)
    (hsig : env.badSignatureCount rawtx = 1)
    (hssh : script.spendSecretHash = hash160hex env (ch.spend_secret.getD 0))
    (hpk : script.payeePubkey = env.wif2pubkey (ch.payee_wif.getD 0))
    (hfind : findMatch env script.revokeSecretHash ch.commits_requested =
      some s)
    (hnd : ch.commits_requested.Nodup) :
    ∃ ch', set_commit env ch rawtx script =
        .ok (some (get_transferred_amount env ch'), ch') ∧
      s ∈ ch.commits_requested ∧
      hash160hex env s = script.revokeSecretHash ∧
      ch'.commits_requested = ch.commits_requested.erase s ∧
      s ∉ ch'.commits_requested ∧
      ch'.commits_active = ch.commits_active.insertionSort (commitLE env) ++
        [{ rawtx := rawtx, script := script, revoke_secret := s }] ∧
      get_transferred_amount env ch' = env.getQuantity rawtx := by
  obtain ⟨hmem, hhash⟩ := findMatch_eq_some env script.revokeSecretHash
    ch.commits_requested s hfind
  have heq := set_commit_match_eq env ch rawtx script s hsig hssh hpk hfind
  have htr : get_transferred_amount env (afterCommit env ch rawtx script s) =
      env.getQuantity rawtx := by
    simp [get_transferred_amount, afterCommit, List.getLast?_concat]
  refine ⟨afterCommit env ch rawtx script s, by rw [heq, htr], hmem, hhash,
    rfl, ?_, rfl, htr⟩
  exact hnd.not_mem_erase

theorem set_commit_match_consumes_witness :
    ∃ ch', set_commit env0 chReq 10 ⟨105, 1007, 121, 4⟩ =
        .ok (some (get_transferred_amount env0 ch'), ch') ∧
      21 ∈ chReq.commits_requested ∧
      hash160hex env0 21 = (⟨105, 1007, 121, 4⟩ : Script).revokeSecretHash ∧
      ch'.commits_requested = chReq.commits_requested.erase 21 ∧
      21 ∉ ch'.commits_requested ∧
      ch'.commits_active = chReq.commits_active.insertionSort (commitLE env0) ++
        [{ rawtx := 10, script := ⟨105, 1007, 121, 4⟩,
           revoke_secret := 21 }] ∧
      get_transferred_amount env0 ch' = env0.getQuantity 10 :=
  set_commit_match_consumes env0 chReq 10 ⟨105, 1007, 121, 4⟩ 21
    (by decide) (by decide) (by decide) (by decide) (by decide)

/-! ### C9: the new commit is appended after re-ordering -/

/-- C9: `set_commit` re-orders the active commits before appending, so on
return the new commit is the last element of `commits_active` and the
returned amount is the new commit's own quantity, even when an
already-active commit has a larger quantity (in which case the list is
left unsorted). -/
theorem set_commit_appends_last (env : Env) (ch : Channel) (rawtx : Nat)
    (script : Script) (s : Nat)
    (hsig : env.badSignatureCount rawtx = 1)
    (hssh : script.spendSecretHash = hash160hex env (ch.spend_secret.getD 0))
    (hpk : script.payeePubkey = env.wif2pubkey (ch.payee_wif.getD 0))
    (hfind : findMatch env script.revokeSecretHash ch.commits_requested =
      some s) :
    ∃ ch', set_commit env ch rawtx script =
        .ok (some (env.getQuantity rawtx), ch') ∧
      ch'.commits_active = ch.commits_active.insertionSort (commitLE env) ++
        [{ rawtx := rawtx, script := script, revoke_secret := s }] ∧
      ch'.commits_active.getLast? =
        some { rawtx := rawtx, script := script, revoke_secret := s } ∧
      get_transferred_amount env ch' = env.getQuantity rawtx := by
  have heq := set_commit_match_eq env ch rawtx script s hsig hssh hpk hfind
  refine ⟨afterCommit env ch rawtx script s, heq, rfl, ?_, ?_⟩
  · simp [afterCommit, List.getLast?_concat]
  · simp [get_transferred_amount, afterCommit, List.getLast?_concat]

theorem set_commit_appends_last_witness :
    ∃ ch', set_commit env0 chBig 10 ⟨105, 1007, 121, 4⟩ =
        .ok (some (env0.getQuantity 10), ch') ∧
      ch'.commits_active = chBig.commits_active.insertionSort (commitLE env0) ++
        [{ rawtx := 10, script := ⟨105, 1007, 121, 4⟩,
           revoke_secret := 21 }] ∧
      ch'.commits_active.getLast? =
        some { rawtx := 10, script := ⟨105, 1007, 121, 4⟩,
               revoke_secret := 21 } ∧
      get_transferred_amount env0 ch' = env0.getQuantity 10 :=
  set_commit_appends_last env0 chBig 10 ⟨105, 1007, 121, 4⟩ 21
    (by decide) (by decide) (by decide) (by decide)

/-! ### C7: payout-recoverable scripts -/

/-- C7: `get_payout_recoverable` collects a script exactly when some commit
(active or revoked) carries it, that commit is not reported spent
on-chain, its address is reported spendable, and some UTXO at the address
has confirmation depth at least the script's embedded delay; spent
commits are excluded regardless of their UTXOs. -/
theorem get_payout_recoverable_spec (env : Env) (ch : Channel) (s : Script) :
    s ∈ get_payout_recoverable env ch ↔
      ∃ c ∈ ch.commits_active ++ ch.commits_revoked,
        c.script = s ∧ env.commitSpent c = false ∧
        env.canSpendFromAddress (env.script2address c.script) = true ∧
        ∃ txid ∈ env.retrieveUtxos (env.script2address c.script),
          c.script.delayTime ≤ env.confirms txid := by
  simp only [get_payout_recoverable, List.mem_flatMap,
    mem_recoverableForCommit]

theorem setup_resets_unconditionally_witness :
    setup env0 chWithDeposit 7 5 =
      ((1007, 105),
       { payer_wif := none, payee_wif := some 7, spend_secret := some 5,
         deposit_rawtx := none, deposit_script := none,
         commits_requested := [], commits_active := [],
         commits_revoked := [], payout_rawtxs := [] }) ∧
    set_deposit env0 chWithDeposit 3 ⟨105, 1007, 0, 0⟩ = .error .assertion :=
  ⟨(setup_resets_unconditionally env0 chWithDeposit 7 5).1,
   (setup_resets_unconditionally env0 chWithDeposit 7 5).2 3
     ⟨105, 1007, 0, 0⟩ (by decide)⟩

end Picopayments
